import Mathlib

/-!
# CareerMatch-AI: skill-tree / roadmap subsystem, shallow embedding

Verification of the gamified skill tree, XP estimator, adaptive
recommendation selector and career-roadmap scheduler of the CareerMatch-AI
repository.  The embedding follows the Python sources:

* `ai-features/E. Gamified Skill Tree/gamified_skill_tree.py`
* `ai-features/adaptive_recommendation_system.py`
* `ai-features/11. Transparent Career Roadmap Generation/roadmap_generation.py`

Conventions:
* Python dictionaries keyed by strings are association lists
  (`List (String × _)`); `d[k]` (which raises `KeyError` when `k` is
  missing) is modelled with `Option`, `d.get(k, default)` with `getD`.
* Python `int` is `ℤ`; `float` values entering comparisons are modelled
  exactly: for the catalog values the doubles `0.7 * 80`, `0.7 * 100`,
  `0.3 * 80` and `0.3 * 100` are exactly `56.0`, `70.0`, `24.0` and `30.0`,
  so `xp < 0.7 * req` is `10 * xp < 7 * req` and `xp < 0.3 * req` is
  `10 * xp < 3 * req` on integer XP values.
* Functions that can raise return `Option`; `none` is an uncaught
  exception.
-/

set_option maxRecDepth 8192

namespace CareerMatch

/-- Python dict lookup `d.get(k)` over an association list
(first binding wins, as dict keys are unique). -/
def alookup {α : Type} (k : String) : List (String × α) → Option α
  | [] => none
  | p :: rest => if p.1 = k then some p.2 else alookup k rest

theorem alookup_eq_none_of_not_mem {α : Type} (k : String) (l : List (String × α))
    (h : k ∉ l.map Prod.fst) : alookup k l = none := by
  induction l with
  | nil => rfl
  | cons p rest ih =>
    simp only [List.map_cons, List.mem_cons, not_or] at h
    have hk : p.1 ≠ k := fun hp => h.1 hp.symm
    rw [alookup, if_neg hk]
    exact ih h.2

theorem alookup_of_mem_nodup {α : Type} (k : String) (v : α) (l : List (String × α))
    (hmem : (k, v) ∈ l) (hnd : (l.map Prod.fst).Nodup) : alookup k l = some v := by
  induction l with
  | nil => cases hmem
  | cons p rest ih =>
    simp only [List.map_cons, List.nodup_cons] at hnd
    rcases List.mem_cons.mp hmem with h | h
    · cases h; simp [alookup]
    · have hk : p.1 ≠ k := by
        intro he
        exact hnd.1 (he ▸ (List.mem_map.mpr ⟨(k, v), h, rfl⟩))
      simp only [alookup, if_neg hk]
      exact ih h hnd.2

theorem mem_snd_of_alookup {α : Type} (k : String) (v : α) (l : List (String × α))
    (h : alookup k l = some v) : v ∈ l.map Prod.snd := by
  induction l with
  | nil => cases h
  | cons p rest ih =>
    simp only [alookup] at h
    by_cases hp : p.1 = k
    · rw [if_pos hp] at h
      cases h; simp
    · rw [if_neg hp] at h
      simp [ih h]

theorem mem_of_alookup_eq_some {α : Type} (k : String) (v : α) (l : List (String × α))
    (h : alookup k l = some v) : (k, v) ∈ l := by
  induction l with
  | nil => cases h
  | cons p rest ih =>
    simp only [alookup] at h
    by_cases hp : p.1 = k
    · rw [if_pos hp] at h
      cases h
      simp only [List.mem_cons]
      left
      rw [← hp]
    · rw [if_neg hp] at h
      exact List.mem_cons_of_mem _ (ih h)

/-! ## Skill catalog (`SKILL_DEFS` in both skill-tree files) -/

/-- `SkillNode` dataclass. -/
structure SkillNode where
  skill_id : String
  name : String
  required_xp : ℤ
  depends_on : List String
  roles : List String
deriving DecidableEq, Repr

/-- The static skill catalog `SKILL_DEFS` (dict insertion order kept). -/
def SKILL_DEFS : List (String × SkillNode) :=
  [ ("python", ⟨"python", "Python Programming", 100, [], ["data_scientist", "ml_engineer", "backend"]⟩),
    ("pandas", ⟨"pandas", "Pandas for Data Analysis", 80, ["python"], ["data_scientist", "data_analyst"]⟩),
    ("ml_fundamentals", ⟨"ml_fundamentals", "ML Fundamentals", 100, ["python"], ["data_scientist", "ml_engineer"]⟩),
    ("model_deployment", ⟨"model_deployment", "Model Deployment", 80, ["ml_fundamentals"], ["ml_engineer"]⟩),
    ("sql", ⟨"sql", "SQL for Data", 100, [], ["data_analyst", "data_scientist"]⟩),
    ("data_viz", ⟨"data_viz", "Data Visualization", 80, ["pandas"], ["data_analyst", "data_scientist"]⟩) ]

/-- `SKILL_DEFS[skill_id]` as a partial lookup (`KeyError` is `none`). -/
def findDef (sid : String) : Option SkillNode := alookup sid SKILL_DEFS

/-! ## User state (`UserSkillState` dataclass) -/

/-- `UserSkillState` dataclass; defaults `current_xp=0`, `status="locked"`. -/
structure UserSkillState where
  current_xp : ℤ := 0
  status : String := "locked"
deriving DecidableEq, Repr

/-- A user state map `Dict[str, UserSkillState]`. -/
abbrev UserState : Type := List (String × UserSkillState)

/-- XP of `k` in `m`, `none` when `k` is absent. -/
def xpOf (k : String) (m : UserState) : Option ℤ :=
  (alookup k m).map (·.current_xp)

/-- Status of `k` in `m`, `none` when `k` is absent. -/
def statusOf (k : String) (m : UserState) : Option String :=
  (alookup k m).map (·.status)

/-- `user_state.get(dep_id, UserSkillState()).current_xp`: a missing entry
defaults to fresh state with 0 XP. -/
def depXpOf (m : UserState) (k : String) : ℤ :=
  ((alookup k m).getD {}).current_xp

/-- The in-place mutation `user_state[sid].status = st` (XP untouched,
key set untouched). -/
def setStatus (sid : String) (st : String) : UserState → UserState
  | [] => []
  | p :: rest =>
    if p.1 = sid then (p.1, { p.2 with status := st }) :: setStatus sid st rest
    else p :: setStatus sid st rest

/-! ## Unlock check (`is_unlocked`) -/

/-- Loop body of `is_unlocked`: returns `False` early at the first
dependency whose XP is strictly below `0.7 * dep_node.required_xp`.
`SKILL_DEFS[dep_id]` raises (`none`) when the dependency is not in the
catalog; the user-state lookup defaults to 0 XP.  `0.7 * r` for the
catalog XP requirements is exact as a double, so the comparison is the
rational one `10 * xp < 7 * r`. -/
def isUnlockedGo (m : UserState) : List String → Option Bool
  | [] => some true
  | dep :: rest =>
    match findDef dep with
    | none => none
    | some depNode =>
      if 10 * depXpOf m dep < 7 * depNode.required_xp then some false
      else isUnlockedGo m rest

/-- `is_unlocked(skill_id, user_state)`: all direct dependencies meet the
70% XP threshold (vacuously true when there are none). -/
def is_unlocked (sid : String) (m : UserState) : Option Bool :=
  match findDef sid with
  | none => none
  | some node => isUnlockedGo m node.depends_on

/-! ## Status update (`update_statuses`) -/

/-- One iteration of the `update_statuses` loop for skill `sid`:
`user_state[sid]` (KeyError when absent), then set the status to
`completed` / `in_progress` / `unlocked` / `locked`. -/
def stepStatus (m : UserState) (sid : String) (node : SkillNode) : Option UserState :=
  match alookup sid m with
  | none => none
  | some state =>
    if node.required_xp ≤ state.current_xp then some (setStatus sid "completed" m)
    else
      match is_unlocked sid m with
      | none => none
      | some u =>
        if u then some (setStatus sid (if 0 < state.current_xp then "in_progress" else "unlocked") m)
        else some (setStatus sid "locked" m)

/-- The `for sid, node in SKILL_DEFS.items()` loop of `update_statuses`. -/
def updateGo : List (String × SkillNode) → UserState → Option UserState
  | [], m => some m
  | p :: rest, m =>
    match stepStatus m p.1 p.2 with
    | none => none
    | some m' => updateGo rest m'

/-- `update_statuses(user_state)`; `none` models an uncaught `KeyError`. -/
def update_statuses (m : UserState) : Option UserState :=
  updateGo SKILL_DEFS m

/-- The map has an entry for every skill of the catalog. -/
abbrev Complete (m : UserState) : Prop :=
  ∀ p ∈ SKILL_DEFS, (alookup p.1 m).isSome

/-- Claim-side rendering of the 70% prerequisite threshold for one
dependency (inclusive: XP equal to `0.7 * required_xp` qualifies). -/
def prereqOK (m : UserState) (dep : String) : Bool :=
  match findDef dep with
  | none => true
  | some dn => 7 * dn.required_xp ≤ 10 * depXpOf m dep

/-! ### Lemmas about `setStatus` -/

theorem alookup_setStatus (sid st k : String) (m : UserState) :
    alookup k (setStatus sid st m) =
      (alookup k m).map (fun v => if k = sid then { v with status := st } else v) := by
  induction m with
  | nil => rfl
  | cons p rest ih =>
    by_cases hps : p.1 = sid
    · by_cases hpk : p.1 = k
      · have hks : k = sid := by rw [← hpk, hps]
        subst hks
        simp [setStatus, alookup, hps, hpk]
      · have hks : ¬ (sid = k) := fun h => hpk (hps.trans h)
        have hks' : ¬ (k = sid) := fun h => hks h.symm
        simp [setStatus, alookup, hps, hpk, hks, hks', ih]
    · by_cases hpk : p.1 = k
      · have hks : ¬ (k = sid) := fun h => hps (hpk.trans h)
        simp [setStatus, alookup, hps, hpk, hks]
      · simp [setStatus, alookup, hps, hpk, ih]

theorem xpOf_setStatus (sid st k : String) (m : UserState) :
    xpOf k (setStatus sid st m) = xpOf k m := by
  simp only [xpOf, alookup_setStatus, Option.map_map]
  cases alookup k m with
  | none => rfl
  | some v =>
    by_cases h : k = sid <;> simp [h]

theorem depXpOf_setStatus (sid st k : String) (m : UserState) :
    depXpOf (setStatus sid st m) k = depXpOf m k := by
  simp only [depXpOf, alookup_setStatus]
  cases alookup k m with
  | none => rfl
  | some v =>
    by_cases h : k = sid <;> simp [h]

theorem statusOf_setStatus_same (sid st : String) (m : UserState) (v : UserSkillState)
    (h : alookup sid m = some v) :
    statusOf sid (setStatus sid st m) = some st := by
  simp [statusOf, alookup_setStatus, h]

theorem statusOf_setStatus_other (sid st k : String) (m : UserState) (h : k ≠ sid) :
    statusOf k (setStatus sid st m) = statusOf k m := by
  simp only [statusOf, alookup_setStatus, Option.map_map]
  cases alookup k m with
  | none => rfl
  | some v => simp [h]

theorem keys_setStatus (sid st : String) (m : UserState) :
    (setStatus sid st m).map Prod.fst = m.map Prod.fst := by
  induction m with
  | nil => rfl
  | cons p rest ih =>
    by_cases hps : p.1 = sid <;> simp [setStatus, hps, ih]

theorem isSome_alookup_setStatus (sid st k : String) (m : UserState) :
    (alookup k (setStatus sid st m)).isSome = (alookup k m).isSome := by
  rw [alookup_setStatus]
  cases alookup k m <;> rfl

/-! ### Lemmas about `is_unlocked` -/

theorem isUnlockedGo_setStatus (sid st : String) (m : UserState) (deps : List String) :
    isUnlockedGo (setStatus sid st m) deps = isUnlockedGo m deps := by
  induction deps with
  | nil => rfl
  | cons dep rest ih =>
    simp only [isUnlockedGo, depXpOf_setStatus, ih]

theorem is_unlocked_setStatus (sid st k : String) (m : UserState) :
    is_unlocked k (setStatus sid st m) = is_unlocked k m := by
  simp only [is_unlocked]
  cases findDef k with
  | none => rfl
  | some node => exact isUnlockedGo_setStatus sid st m node.depends_on

theorem isUnlockedGo_isSome (m : UserState) (deps : List String)
    (h : ∀ dep ∈ deps, (findDef dep).isSome) : (isUnlockedGo m deps).isSome := by
  induction deps with
  | nil => rfl
  | cons dep rest ih =>
    have hdep : (findDef dep).isSome := h dep (List.mem_cons_self _ _)
    obtain ⟨dn, hdn⟩ := Option.isSome_iff_exists.mp hdep
    simp only [isUnlockedGo, hdn]
    by_cases hlt : 10 * depXpOf m dep < 7 * dn.required_xp
    · simp [if_pos hlt]
    · simp only [if_neg hlt]
      exact ih (fun d hd => h d (List.mem_cons_of_mem _ hd))

theorem isUnlockedGo_eq_all (m : UserState) (deps : List String)
    (h : ∀ dep ∈ deps, (findDef dep).isSome) :
    isUnlockedGo m deps = some (deps.all (prereqOK m)) := by
  induction deps with
  | nil => rfl
  | cons dep rest ih =>
    have hdep : (findDef dep).isSome := h dep (List.mem_cons_self _ _)
    obtain ⟨dn, hdn⟩ := Option.isSome_iff_exists.mp hdep
    simp only [isUnlockedGo, hdn, List.all_cons]
    by_cases hlt : 10 * depXpOf m dep < 7 * dn.required_xp
    · have hko : prereqOK m dep = false := by
        simp only [prereqOK, hdn, decide_eq_false_iff_not, not_le]
        omega
      simp [if_pos hlt, hko]
    · have hko : prereqOK m dep = true := by
        simp only [prereqOK, hdn, decide_eq_true_eq]
        omega
      rw [if_neg hlt, ih (fun d hd => h d (List.mem_cons_of_mem _ hd)), hko]
      simp

theorem isUnlockedGo_eq_some_false (m : UserState) (deps : List String) (dep : String)
    (dn : SkillNode) (u : Bool) (hmem : dep ∈ deps) (hdn : findDef dep = some dn)
    (hlow : 10 * depXpOf m dep < 7 * dn.required_xp)
    (h : isUnlockedGo m deps = some u) : u = false := by
  induction deps with
  | nil => cases hmem
  | cons d rest ih =>
    rcases List.mem_cons.mp hmem with he | hr
    · subst he
      simp only [isUnlockedGo, hdn, if_pos hlow] at h
      exact (Option.some_inj.mp h).symm
    · cases hfd : findDef d with
      | none =>
        simp only [isUnlockedGo, hfd] at h
        cases h
      | some ddn =>
        simp only [isUnlockedGo, hfd] at h
        by_cases hlt : 10 * depXpOf m d < 7 * ddn.required_xp
        · rw [if_pos hlt] at h
          exact (Option.some_inj.mp h).symm
        · rw [if_neg hlt] at h
          exact ih hr h

/-! ### Characterization of one `update_statuses` loop iteration -/

theorem stepStatus_eq_some (m m1 : UserState) (sid : String) (node : SkillNode)
    (h : stepStatus m sid node = some m1) :
    ∃ st s, alookup sid m = some st ∧ m1 = setStatus sid s m ∧
      ((node.required_xp ≤ st.current_xp ∧ s = "completed") ∨
       (st.current_xp < node.required_xp ∧ ∃ u, is_unlocked sid m = some u ∧
         s = if u then (if 0 < st.current_xp then "in_progress" else "unlocked")
             else "locked")) := by
  cases hl : alookup sid m with
  | none =>
    simp only [stepStatus, hl] at h
    exact Option.noConfusion h
  | some st =>
    simp only [stepStatus, hl] at h
    by_cases hreq : node.required_xp ≤ st.current_xp
    · rw [if_pos hreq] at h
      exact ⟨st, "completed", rfl, (Option.some_inj.mp h).symm, Or.inl ⟨hreq, rfl⟩⟩
    · rw [if_neg hreq] at h
      cases hu : is_unlocked sid m with
      | none =>
        rw [hu] at h
        exact Option.noConfusion h
      | some u =>
        rw [hu] at h
        cases u with
        | true =>
          have h' : setStatus sid (if 0 < st.current_xp then "in_progress" else "unlocked") m = m1 :=
            Option.some_inj.mp h
          exact ⟨st, if 0 < st.current_xp then "in_progress" else "unlocked",
            rfl, h'.symm, Or.inr ⟨not_le.mp hreq, true, rfl, by simp⟩⟩
        | false =>
          have h' : setStatus sid "locked" m = m1 := Option.some_inj.mp h
          exact ⟨st, "locked", rfl, h'.symm,
            Or.inr ⟨not_le.mp hreq, false, rfl, by simp⟩⟩

/-! ### The `update_statuses` loop: frame and status characterization -/

theorem updateGo_keys (defs : List (String × SkillNode)) (m m' : UserState)
    (h : updateGo defs m = some m') : m'.map Prod.fst = m.map Prod.fst := by
  induction defs generalizing m with
  | nil =>
    cases h
    rfl
  | cons p rest ih =>
    cases hst : stepStatus m p.1 p.2 with
    | none =>
      simp only [updateGo, hst] at h
      exact Option.noConfusion h
    | some m1 =>
      simp only [updateGo, hst] at h
      obtain ⟨st, s, hl, hm1, _⟩ := stepStatus_eq_some m m1 p.1 p.2 hst
      rw [ih m1 h, hm1, keys_setStatus]

theorem updateGo_xp (defs : List (String × SkillNode)) (m m' : UserState)
    (h : updateGo defs m = some m') : ∀ k, xpOf k m' = xpOf k m := by
  induction defs generalizing m with
  | nil =>
    cases h
    exact fun _ => rfl
  | cons p rest ih =>
    cases hst : stepStatus m p.1 p.2 with
    | none =>
      simp only [updateGo, hst] at h
      exact Option.noConfusion h
    | some m1 =>
      simp only [updateGo, hst] at h
      obtain ⟨st, s, hl, hm1, _⟩ := stepStatus_eq_some m m1 p.1 p.2 hst
      intro k
      rw [ih m1 h k, hm1, xpOf_setStatus]

theorem updateGo_status_other (defs : List (String × SkillNode)) (m m' : UserState)
    (h : updateGo defs m = some m') :
    ∀ k, k ∉ defs.map Prod.fst → statusOf k m' = statusOf k m := by
  induction defs generalizing m with
  | nil =>
    cases h
    exact fun _ _ => rfl
  | cons p rest ih =>
    cases hst : stepStatus m p.1 p.2 with
    | none =>
      simp only [updateGo, hst] at h
      exact Option.noConfusion h
    | some m1 =>
      simp only [updateGo, hst] at h
      obtain ⟨st, s, hl, hm1, _⟩ := stepStatus_eq_some m m1 p.1 p.2 hst
      intro k hk
      simp only [List.map_cons, List.mem_cons, not_or] at hk
      rw [ih m1 h k hk.2, hm1, statusOf_setStatus_other _ _ _ _ hk.1]

theorem updateGo_status_mem (defs : List (String × SkillNode)) (m m' : UserState)
    (hnd : (defs.map Prod.fst).Nodup) (h : updateGo defs m = some m')
    (sid : String) (node : SkillNode) (hmem : (sid, node) ∈ defs) :
    ∃ xp, xpOf sid m = some xp ∧
      ((node.required_xp ≤ xp ∧ statusOf sid m' = some "completed") ∨
       (xp < node.required_xp ∧ ∃ u, is_unlocked sid m = some u ∧
         statusOf sid m' =
           some (if u then (if 0 < xp then "in_progress" else "unlocked")
                 else "locked"))) := by
  induction defs generalizing m with
  | nil => cases hmem
  | cons p rest ih =>
    obtain ⟨sid₀, n₀⟩ := p
    cases hst : stepStatus m sid₀ n₀ with
    | none =>
      simp only [updateGo, hst] at h
      exact Option.noConfusion h
    | some m1 =>
      simp only [updateGo, hst] at h
      obtain ⟨st, s, hl, hm1, hcase⟩ := stepStatus_eq_some m m1 sid₀ n₀ hst
      simp only [List.map_cons, List.nodup_cons] at hnd
      rcases List.mem_cons.mp hmem with he | hr
      · obtain ⟨rfl, rfl⟩ := Prod.mk.injEq .. ▸ he
        have hother : statusOf sid m' = statusOf sid m1 :=
          updateGo_status_other rest m1 m' h sid hnd.1
        have hset : statusOf sid m1 = some s := by
          rw [hm1]
          exact statusOf_setStatus_same sid s m st hl
        refine ⟨st.current_xp, by simp [xpOf, hl], ?_⟩
        rcases hcase with ⟨hreq, rfl⟩ | ⟨hlt, u, hu, rfl⟩
        · exact Or.inl ⟨hreq, by rw [hother, hset]⟩
        · exact Or.inr ⟨hlt, u, hu, by rw [hother, hset]⟩
      · obtain ⟨xp, hxp, hres⟩ := ih m1 hnd.2 h hr
        refine ⟨xp, ?_, ?_⟩
        · rw [← hxp, hm1, xpOf_setStatus]
        · rcases hres with ⟨hreq, hstat⟩ | ⟨hlt, u, hu, hstat⟩
          · exact Or.inl ⟨hreq, hstat⟩
          · refine Or.inr ⟨hlt, u, ?_, hstat⟩
            rw [← hu, hm1, is_unlocked_setStatus]

theorem updateGo_isSome (defs : List (String × SkillNode)) (m : UserState)
    (h1 : ∀ p ∈ defs, (alookup p.1 m).isSome)
    (h2 : ∀ p ∈ defs, ∃ nd, findDef p.1 = some nd ∧
      ∀ dep ∈ nd.depends_on, (findDef dep).isSome) :
    (updateGo defs m).isSome := by
  induction defs generalizing m with
  | nil => rfl
  | cons p rest ih =>
    obtain ⟨st, hst⟩ := Option.isSome_iff_exists.mp (h1 p (List.mem_cons_self _ _))
    obtain ⟨nd, hnd, hdeps⟩ := h2 p (List.mem_cons_self _ _)
    have hunlock : (is_unlocked p.1 m).isSome := by
      simp only [is_unlocked, hnd]
      exact isUnlockedGo_isSome m nd.depends_on hdeps
    have hstep : (stepStatus m p.1 p.2).isSome := by
      simp only [stepStatus, hst]
      by_cases hreq : p.2.required_xp ≤ st.current_xp
      · simp [if_pos hreq]
      · rw [if_neg hreq]
        obtain ⟨u, hu⟩ := Option.isSome_iff_exists.mp hunlock
        simp only [hu]
        cases u <;> simp
    obtain ⟨m1, hm1⟩ := Option.isSome_iff_exists.mp hstep
    obtain ⟨st', s, hl', hm1eq, _⟩ := stepStatus_eq_some m m1 p.1 p.2 hm1
    simp only [updateGo, hm1]
    apply ih
    · intro q hq
      rw [hm1eq, isSome_alookup_setStatus]
      exact h1 q (List.mem_cons_of_mem _ hq)
    · intro q hq
      exact h2 q (List.mem_cons_of_mem _ hq)

/-! ### Concrete catalog facts -/

theorem skillKeysNodup : (SKILL_DEFS.map Prod.fst).Nodup := by decide

theorem findDef_of_mem {sid : String} {node : SkillNode} (h : (sid, node) ∈ SKILL_DEFS) :
    findDef sid = some node :=
  alookup_of_mem_nodup sid node SKILL_DEFS h skillKeysNodup

theorem catalogDepsClosed :
    ∀ p ∈ SKILL_DEFS, ∀ dep ∈ p.2.depends_on, (findDef dep).isSome := by decide

theorem catalogClosed :
    ∀ p ∈ SKILL_DEFS, ∃ nd, findDef p.1 = some nd ∧
      ∀ dep ∈ nd.depends_on, (findDef dep).isSome := by
  rintro ⟨sid, node⟩ hp
  exact ⟨node, findDef_of_mem hp, catalogDepsClosed _ hp⟩

/-! ### Sample user states used as concrete inputs -/

/-- A complete user state (every catalog skill present). -/
def sampleState : UserState :=
  [ ("python", ⟨50, "locked"⟩), ("pandas", ⟨15, "locked"⟩),
    ("ml_fundamentals", ⟨0, "locked"⟩), ("model_deployment", ⟨0, "locked"⟩),
    ("sql", ⟨0, "locked"⟩), ("data_viz", ⟨0, "locked"⟩) ]

/-- `pandas` already has its full 80 XP while its prerequisite `python`
has 0 XP (far below the 70-XP threshold). -/
def gateState : UserState :=
  [ ("python", ⟨0, "locked"⟩), ("pandas", ⟨80, "locked"⟩),
    ("ml_fundamentals", ⟨0, "locked"⟩), ("model_deployment", ⟨0, "locked"⟩),
    ("sql", ⟨0, "locked"⟩), ("data_viz", ⟨0, "locked"⟩) ]

/-- `pandas` at 10 XP with prerequisite `python` at 0 XP. -/
def gateStateW : UserState :=
  [ ("python", ⟨0, "locked"⟩), ("pandas", ⟨10, "locked"⟩),
    ("ml_fundamentals", ⟨0, "locked"⟩), ("model_deployment", ⟨0, "locked"⟩),
    ("sql", ⟨0, "locked"⟩), ("data_viz", ⟨0, "locked"⟩) ]

/-- The spec scenario: `python` (required 100, no prereqs) at 70 XP and
`pandas` (required 80, depends on `python`) at 0 XP. -/
def exampleState : UserState :=
  [ ("python", ⟨70, "locked"⟩), ("pandas", ⟨0, "locked"⟩),
    ("ml_fundamentals", ⟨0, "locked"⟩), ("model_deployment", ⟨0, "locked"⟩),
    ("sql", ⟨0, "locked"⟩), ("data_viz", ⟨0, "locked"⟩) ]

/-! ## Claim C1 — totality of `update_statuses` -/

/-- C1 counterexample: `update_statuses` on the empty map raises `KeyError`
at `user_state[sid]` (the result is `none`), so the operation is not total
over arbitrary XP/state maps and a skill absent from the map is not
treated as having 0 XP by the loop itself. -/
theorem update_statuses_empty_raises : update_statuses ([] : UserState) = none := rfl

/-- C1 (amended): for every user-state map that has an entry for each
skill of `SKILL_DEFS`, `update_statuses` succeeds (raises no exception)
and assigns a status to every catalog skill. -/
theorem update_statuses_total_on_complete (m : UserState) (hc : Complete m) :
    ∃ m', update_statuses m = some m' ∧
      ∀ p ∈ SKILL_DEFS, ∃ s, statusOf p.1 m' = some s := by
  obtain ⟨m', hm'⟩ :=
    Option.isSome_iff_exists.mp (updateGo_isSome SKILL_DEFS m hc catalogClosed)
  refine ⟨m', hm', ?_⟩
  rintro ⟨sid, node⟩ hp
  obtain ⟨xp, _, hres⟩ := updateGo_status_mem SKILL_DEFS m m' skillKeysNodup hm' sid node hp
  rcases hres with ⟨_, hstat⟩ | ⟨_, u, _, hstat⟩
  · exact ⟨_, hstat⟩
  · exact ⟨_, hstat⟩

/-- C1 witness: the amended totality theorem applied to a concrete
complete user state. -/
theorem update_statuses_total_on_complete_witness :
    ∃ m', update_statuses sampleState = some m' ∧
      ∀ p ∈ SKILL_DEFS, ∃ s, statusOf p.1 m' = some s :=
  update_statuses_total_on_complete sampleState (by decide)

/-! ## Claim C2 — unlock gating -/

/-- C2 counterexample: in `gateState`, `pandas` has XP 80 = its full
requirement while its direct prerequisite `python` has 0 XP, strictly
below `0.7 * 100 = 70`; `update_statuses` nevertheless reports `pandas`
as `completed`, not `locked`, because the completion branch is evaluated
before the prerequisite check. -/
theorem unlock_gating_counterexample :
    findDef "pandas" =
      some ⟨"pandas", "Pandas for Data Analysis", 80, ["python"],
        ["data_scientist", "data_analyst"]⟩ ∧
    xpOf "python" gateState = some 0 ∧ 10 * (0 : ℤ) < 7 * 100 ∧
    (update_statuses gateState).bind (statusOf "pandas") = some "completed" ∧
    "completed" ≠ "locked" := by decide

/-- C2 (amended): whenever `update_statuses` succeeds, a catalog skill
whose current XP is strictly below its requirement and one of whose
direct prerequisites has XP strictly below 70% of that prerequisite's
requirement ends up `locked` (in particular never `unlocked`,
`in_progress` or `completed`). -/
theorem unlock_gating (m m' : UserState) (sid dep : String) (node dnode : SkillNode)
    (xp : ℤ) (hm : update_statuses m = some m') (hmem : (sid, node) ∈ SKILL_DEFS)
    (hxp : xpOf sid m = some xp) (hlt : xp < node.required_xp)
    (hdep : dep ∈ node.depends_on) (hdn : findDef dep = some dnode)
    (hlow : 10 * depXpOf m dep < 7 * dnode.required_xp) :
    statusOf sid m' = some "locked" := by
  obtain ⟨xp', hxp', hres⟩ := updateGo_status_mem SKILL_DEFS m m' skillKeysNodup hm sid node hmem
  have hxpe : xp' = xp := Option.some_inj.mp (hxp' ▸ hxp)
  subst hxpe
  rcases hres with ⟨hreq, _⟩ | ⟨_, u, hu, hstat⟩
  · omega
  · have hu' : isUnlockedGo m node.depends_on = some u := by
      have hfd : findDef sid = some node := findDef_of_mem hmem
      simp only [is_unlocked, hfd] at hu
      exact hu
    have hfalse : u = false :=
      isUnlockedGo_eq_some_false m node.depends_on dep dnode u hdep hdn hlow hu'
    subst hfalse
    simpa using hstat

/-- C2 witness: the amended gating theorem applied to `gateStateW`
(`pandas` at 10 XP, prerequisite `python` at 0 XP). -/
theorem unlock_gating_witness :
    statusOf "pandas" ((update_statuses gateStateW).getD []) = some "locked" :=
  unlock_gating gateStateW ((update_statuses gateStateW).getD []) "pandas" "python"
    ⟨"pandas", "Pandas for Data Analysis", 80, ["python"], ["data_scientist", "data_analyst"]⟩
    ⟨"python", "Python Programming", 100, [], ["data_scientist", "ml_engineer", "backend"]⟩
    10 (by decide) (by decide) (by decide) (by decide) (by decide) (by decide) (by decide)

/-! ## Claim C3 — exact status assignment -/

/-- Claim-side status rule of C3: `completed` when `xp ≥ required_xp`,
otherwise the unlocked family when every direct prerequisite meets the
inclusive 70% threshold (`in_progress` iff `xp > 0`), otherwise
`locked`. -/
def specStatus (node : SkillNode) (xp : ℤ) (m : UserState) : String :=
  if node.required_xp ≤ xp then "completed"
  else if node.depends_on.all (prereqOK m) then
    (if 0 < xp then "in_progress" else "unlocked")
  else "locked"

/-- C3: on complete user states `update_statuses` assigns exactly the
claimed rule to every catalog skill; in particular, in the spec scenario
(`python` 70/100 with no prereqs, `pandas` 0/80 depending on `python`)
`python` is `in_progress` and `pandas` is `unlocked` (the 70-XP boundary
is inclusive). -/
theorem status_rule :
    (∀ m, Complete m → ∃ m', update_statuses m = some m' ∧
      ∀ p ∈ SKILL_DEFS, ∃ xp, xpOf p.1 m = some xp ∧
        statusOf p.1 m' = some (specStatus p.2 xp m)) ∧
    (update_statuses exampleState).bind (statusOf "python") = some "in_progress" ∧
    (update_statuses exampleState).bind (statusOf "pandas") = some "unlocked" := by
  refine ⟨?_, by decide, by decide⟩
  intro m hc
  obtain ⟨m', hm'⟩ :=
    Option.isSome_iff_exists.mp (updateGo_isSome SKILL_DEFS m hc catalogClosed)
  refine ⟨m', hm', ?_⟩
  rintro ⟨sid, node⟩ hp
  obtain ⟨xp, hxp, hres⟩ := updateGo_status_mem SKILL_DEFS m m' skillKeysNodup hm' sid node hp
  refine ⟨xp, hxp, ?_⟩
  have hfd : findDef sid = some node := findDef_of_mem hp
  rcases hres with ⟨hreq, hstat⟩ | ⟨hlt, u, hu, hstat⟩
  · rw [hstat, specStatus, if_pos hreq]
  · have hall : is_unlocked sid m = some (node.depends_on.all (prereqOK m)) := by
      simp only [is_unlocked, hfd]
      exact isUnlockedGo_eq_all m node.depends_on (catalogDepsClosed _ hp)
    have hueq : u = node.depends_on.all (prereqOK m) :=
      Option.some_inj.mp ((hu ▸ hall : some u = some _))
    subst hueq
    rw [hstat, specStatus, if_neg (not_le.mpr hlt)]

/-- C3 witness: the status rule applied to the concrete spec scenario
state. -/
theorem status_rule_witness :
    ∃ m', update_statuses exampleState = some m' ∧
      ∀ p ∈ SKILL_DEFS, ∃ xp, xpOf p.1 exampleState = some xp ∧
        statusOf p.1 m' = some (specStatus p.2 xp exampleState) :=
  status_rule.1 exampleState (by decide)

/-! ## Claim C10 — `update_statuses` only mutates statuses -/

/-- A complete user state with an extra non-catalog entry. -/
def frameState : UserState :=
  ("rust", ⟨5, "locked"⟩) :: sampleState

/-- C10: on a complete user state, `update_statuses` preserves the exact
key sequence of the map (no entries added or removed) and every entry's
`current_xp`; only statuses change. -/
theorem update_statuses_frame (m : UserState) (hc : Complete m) :
    ∃ m', update_statuses m = some m' ∧
      m'.map Prod.fst = m.map Prod.fst ∧ ∀ k, xpOf k m' = xpOf k m := by
  obtain ⟨m', hm'⟩ :=
    Option.isSome_iff_exists.mp (updateGo_isSome SKILL_DEFS m hc catalogClosed)
  exact ⟨m', hm', updateGo_keys _ _ _ hm', updateGo_xp _ _ _ hm'⟩

/-- C10 witness: the frame theorem applied to a complete state that also
carries a non-catalog entry. -/
theorem update_statuses_frame_witness :
    ∃ m', update_statuses frameState = some m' ∧
      m'.map Prod.fst = frameState.map Prod.fst ∧
      ∀ k, xpOf k m' = xpOf k frameState :=
  update_statuses_frame frameState (by decide)

/-! ## XP estimator (`compute_initial_xp_for_skill`) -/

/-- Per-skill CV evidence record; Python reads the dict fields with
defaults `years_experience=0`, `num_projects=0`, `has_cert=False`, which
the structure defaults realize.  `years_experience` may be fractional
(`0.5` in the repository's sample CV), hence `ℚ`. -/
structure CvFeat where
  years_experience : ℚ := 0
  num_projects : ℤ := 0
  has_cert : Bool := false
deriving DecidableEq, Repr

/-- Python `int(...)` on a number: truncation toward zero. -/
def pyInt (q : ℚ) : ℤ := if 0 ≤ q then ⌊q⌋ else ⌈q⌉

/-- `compute_initial_xp_for_skill(skill_id, cv_features)`.  A skill with
no (or empty, hence falsy) evidence dict yields 0; otherwise the three
independently capped contributions are summed, the total is cut at
`SKILL_DEFS[skill_id].required_xp` (`KeyError`, i.e. `none`, when the
skill is not in the catalog) and converted with `int(...)`. -/
def compute_initial_xp_for_skill (sid : String) (cv : String → Option CvFeat) : Option ℤ :=
  match cv sid with
  | none => some 0
  | some feat =>
    let xp : ℚ := min 50 (feat.years_experience * 20) +
      min 30 ((feat.num_projects : ℚ) * 10) + (if feat.has_cert then 20 else 0)
    match findDef sid with
    | none => none
    | some node => some (pyInt (min xp (node.required_xp : ℚ)))

/-- The XP value exactly as C4 words it: `min(50, years*20) +
min(30, projects*10) + (20 if has_cert else 0)`, clamped to
`[0, skill.required_xp]` — with no integer conversion. -/
def xpFormulaSpec (node : SkillNode) (feat : CvFeat) : ℚ :=
  max 0 (min (min 50 (feat.years_experience * 20) +
    min 30 ((feat.num_projects : ℚ) * 10) + (if feat.has_cert then 20 else 0))
    (node.required_xp : ℚ))

/-- The `python` catalog entry. -/
def nodePython : SkillNode :=
  ⟨"python", "Python Programming", 100, [], ["data_scientist", "ml_engineer", "backend"]⟩

theorem requiredPos (sid : String) (node : SkillNode) (h : findDef sid = some node) :
    0 < node.required_xp := by
  have hmem : node ∈ SKILL_DEFS.map Prod.snd := mem_snd_of_alookup sid node SKILL_DEFS h
  have hall : ∀ n ∈ SKILL_DEFS.map Prod.snd, 0 < n.required_xp := by decide
  exact hall node hmem

/-- Evidence giving `python` an eighth of a year of experience
(`0.125 * 20 = 2.5` XP before conversion). -/
def cvFrac : String → Option CvFeat :=
  fun s => if s = "python" then some ⟨1/8, 0, false⟩ else none

/-- C4 counterexample: with non-negative evidence `years_experience=1/8`,
`num_projects=0`, `has_cert=False` for `python`, the code returns
`int(2.5) = 2`, while the claimed formula value (clamped to `[0, 100]`)
is `2.5`; the claim's equality fails because it omits the final `int(...)`
truncation. -/
theorem xp_estimate_counterexample :
    compute_initial_xp_for_skill "python" cvFrac = some 2 ∧
    xpFormulaSpec nodePython ⟨1/8, 0, false⟩ = 5/2 ∧
    ¬ ((2 : ℚ) = 5/2) ∧ (0 : ℚ) ≤ 1/8 ∧ (0 : ℤ) ≤ 0 := by
  have hfloor : ⌊(5/2 : ℚ)⌋ = 2 := by
    rw [Int.floor_eq_iff]
    constructor <;> norm_num
  refine ⟨?_, ?_, by norm_num, by norm_num, le_refl 0⟩
  · simp only [compute_initial_xp_for_skill, cvFrac, findDef, SKILL_DEFS, alookup]
    norm_num [pyInt, min_def, hfloor]
  · norm_num [xpFormulaSpec, nodePython, min_def, max_def]

/-- C4 (amended): for every catalog skill, missing evidence yields XP 0,
and evidence with non-negative years and projects yields exactly the
floor (= Python `int` truncation, the value being non-negative) of the
claimed clamped formula; the result coincides with the formula itself
whenever the formula value is an integer. -/
theorem xp_estimate (sid : String) (node : SkillNode) (cv : String → Option CvFeat)
    (hdef : findDef sid = some node) :
    (cv sid = none → compute_initial_xp_for_skill sid cv = some 0) ∧
    (∀ feat, cv sid = some feat → 0 ≤ feat.years_experience → 0 ≤ feat.num_projects →
      compute_initial_xp_for_skill sid cv = some ⌊xpFormulaSpec node feat⌋) := by
  constructor
  · intro h
    simp [compute_initial_xp_for_skill, h]
  · intro feat hfeat hy hp
    have hreq : 0 < node.required_xp := requiredPos sid node hdef
    have h1 : (0 : ℚ) ≤ min 50 (feat.years_experience * 20) :=
      le_min (by norm_num) (mul_nonneg hy (by norm_num))
    have h2 : (0 : ℚ) ≤ min 30 ((feat.num_projects : ℚ) * 10) :=
      le_min (by norm_num) (mul_nonneg (by exact_mod_cast hp) (by norm_num))
    have h3 : (0 : ℚ) ≤ (if feat.has_cert then (20 : ℚ) else 0) := by
      by_cases hcert : feat.has_cert <;> simp [hcert]
    have hxp0 : (0 : ℚ) ≤ min 50 (feat.years_experience * 20) +
        min 30 ((feat.num_projects : ℚ) * 10) + (if feat.has_cert then 20 else 0) := by
      have := add_nonneg (add_nonneg h1 h2) h3
      simpa using this
    have hmin0 : (0 : ℚ) ≤ min (min 50 (feat.years_experience * 20) +
        min 30 ((feat.num_projects : ℚ) * 10) + (if feat.has_cert then 20 else 0))
        (node.required_xp : ℚ) := by
      refine le_min hxp0 ?_
      exact_mod_cast le_of_lt hreq
    simp only [compute_initial_xp_for_skill, hfeat, hdef, pyInt, if_pos hmin0,
      xpFormulaSpec, max_eq_right hmin0]

/-- Evidence for the witness: one year of experience and two projects on
`python`. -/
def cvSample : String → Option CvFeat :=
  fun s => if s = "python" then some ⟨1, 2, false⟩ else none

/-- C4 witness: the amended estimator theorem applied to `python` with
concrete evidence (the resulting XP is `⌊min(20 + 20 + 0, 100)⌋ = 40`). -/
theorem xp_estimate_witness :
    compute_initial_xp_for_skill "python" cvSample =
      some ⌊xpFormulaSpec nodePython ⟨1, 2, false⟩⌋ :=
  (xp_estimate "python" nodePython cvSample (by decide)).2 ⟨1, 2, false⟩
    (by decide) (by norm_num) (by norm_num)

/-! ## Knowledge graph (`KNOWLEDGE_GRAPH` in `roadmap_generation.py`) -/

/-- Per-skill metadata inside a role entry: importance weight and direct
prerequisite names. -/
structure SkillMeta where
  importance : ℚ
  prereq : List String
deriving DecidableEq, Repr

/-- One role entry of `KNOWLEDGE_GRAPH`: the `"skills"` table and the
`"resources"` table. -/
structure RoleReq where
  skills : List (String × SkillMeta)
  resources : List (String × String)
deriving DecidableEq, Repr

/-- `KNOWLEDGE_GRAPH["Machine Learning Engineer"]`. -/
def MLE_req : RoleReq :=
  ⟨[ ("Machine Learning Basics", ⟨mkRat 9 10, ["Probability & Statistics", "Python"]⟩),
     ("Deep Learning", ⟨mkRat 95 100, ["Machine Learning Basics", "Linear Algebra"]⟩),
     ("Model Deployment", ⟨mkRat 8 10, ["Docker", "REST APIs"]⟩),
     ("Data Engineering", ⟨mkRat 7 10, ["SQL"]⟩) ],
   [ ("Machine Learning Basics", "Course: Intro to ML (example)"),
     ("Deep Learning", "Course: Deep Learning Specialization (example)"),
     ("Model Deployment", "Project: Deploy model with Docker + FastAPI"),
     ("Data Engineering", "Course: Data Engineering Bootcamp"),
     ("SQL", "Course: SQL for Data Analysis"),
     ("Python", "Course: Python for Data Science") ]⟩

/-- `KNOWLEDGE_GRAPH["Data Analyst"]`. -/
def DA_req : RoleReq :=
  ⟨[ ("Data Analysis", ⟨mkRat 9 10, ["Excel", "Python"]⟩),
     ("SQL", ⟨mkRat 85 100, []⟩),
     ("Visualization", ⟨mkRat 8 10, ["Data Analysis"]⟩) ],
   [ ("Data Analysis", "Course: Data Analysis with Python"),
     ("SQL", "Course: SQL for Data Analysis"),
     ("Visualization", "Project: Build dashboards with PowerBI or Tableau") ]⟩

/-- The whole knowledge graph (dict insertion order kept). -/
def KNOWLEDGE_GRAPH : List (String × RoleReq) :=
  [("Machine Learning Engineer", MLE_req), ("Data Analyst", DA_req)]

/-! ## Prerequisite resolution (`resolve_prereqs`)

The Python `dfs` is a recursive closure over a mutable `visited` set and
`order` list.  The embedding threads the pair `(visited, order)`
explicitly and adds a fuel argument decremented at every recursive call;
`none` means fuel ran out.  `dfs_sufficient` below shows that the fuel
`dfsFuel` chosen in `resolve_prereqsO` is always enough (the visited-set
guard lets every skill be expanded at most once), so the fuel is an
artifact of the embedding, not of the algorithm. -/

/-- `skills_meta.get(s, {}).get("prereq", [])`. -/
def prereqOf (sm : List (String × SkillMeta)) (s : String) : List String :=
  ((alookup s sm).map (·.prereq)).getD []

mutual
/-- `dfs(s)`: skip if visited, else mark visited, recurse into the
prerequisites and append `s` after them (post-order). -/
def dfsVisit (sm : List (String × SkillMeta)) :
    ℕ → String → List String × List String → Option (List String × List String)
  | 0, _, _ => none
  | f + 1, s, st =>
    if s ∈ st.1 then some st
    else
      match dfsList sm f (prereqOf sm s) (s :: st.1, st.2) with
      | none => none
      | some st' => some (st'.1, st'.2 ++ [s])

/-- The `for p in meta.get("prereq", []): dfs(p)` loop. -/
def dfsList (sm : List (String × SkillMeta)) :
    ℕ → List String → List String × List String → Option (List String × List String)
  | 0, _, _ => none
  | _ + 1, [], st => some st
  | f + 1, p :: ps, st =>
    match dfsVisit sm f p st with
    | none => none
    | some st' => dfsList sm f ps st'
end

/-- Every string the traversal can ever visit: the keys of the skills
table and every name in a prerequisite list (plus the start skill,
accounted separately). -/
def allStrings (sm : List (String × SkillMeta)) : List String :=
  sm.map Prod.fst ++ sm.flatMap (fun q => q.2.prereq)

/-- Longest prerequisite list of the table. -/
def maxPrereqLen (sm : List (String × SkillMeta)) : ℕ :=
  (sm.map (fun q => q.2.prereq.length)).foldr max 0

/-- Fuel that `dfs_sufficient` proves adequate for every start skill. -/
def dfsFuel (sm : List (String × SkillMeta)) : ℕ :=
  ((allStrings sm).toFinset.card + 1) * (maxPrereqLen sm + 2)

/-- `resolve_prereqs(skill, role_req)`: post-order closure over
`role_req["skills"]`, with the queried skill filtered from the output
(`none` only on fuel exhaustion, which `resolve_prereqsO_isSome` rules
out). -/
def resolve_prereqsO (rr : RoleReq) (skill : String) : Option (List String) :=
  match dfsVisit rr.skills (dfsFuel rr.skills) skill ([], []) with
  | none => none
  | some st => some (st.2.filter (fun v => v ≠ skill))

/-- Total version of `resolve_prereqs`; by `resolve_prereqsO_isSome` the
default branch is dead code. -/
def resolve_prereqs (rr : RoleReq) (skill : String) : List String :=
  (resolve_prereqsO rr skill).getD []

/-! ### Termination of the traversal (claim C9) -/

/-- Number of potentially visitable strings not yet visited. -/
def unseen (sm : List (String × SkillMeta)) (v : List String) : ℕ :=
  ((allStrings sm).toFinset.filter (fun x => x ∉ v)).card

theorem unseen_mono (sm : List (String × SkillMeta)) (v v' : List String)
    (h : v ⊆ v') : unseen sm v' ≤ unseen sm v := by
  apply Finset.card_le_card
  intro x hx
  simp only [Finset.mem_filter, decide_eq_true_eq] at hx ⊢
  exact ⟨hx.1, fun hmem => hx.2 (h hmem)⟩

theorem unseen_cons_le (sm : List (String × SkillMeta)) (v : List String) (s : String) :
    unseen sm (s :: v) ≤ unseen sm v :=
  unseen_mono sm v (s :: v) (fun _ hx => List.mem_cons_of_mem _ hx)

theorem unseen_cons_lt (sm : List (String × SkillMeta)) (v : List String) (s : String)
    (hs : s ∈ allStrings sm) (hv : s ∉ v) : unseen sm (s :: v) < unseen sm v := by
  have hset : ((allStrings sm).toFinset.filter (fun x => x ∉ (s :: v))) =
      ((allStrings sm).toFinset.filter (fun x => x ∉ v)).erase s := by
    ext x
    simp only [Finset.mem_erase, Finset.mem_filter, List.mem_cons, decide_eq_true_eq, not_or]
    tauto
  have hmem : s ∈ (allStrings sm).toFinset.filter (fun x => x ∉ v) := by
    simp only [Finset.mem_filter, List.mem_toFinset, decide_eq_true_eq]
    exact ⟨hs, hv⟩
  rw [unseen, unseen, hset]
  exact Finset.card_erase_lt_of_mem hmem

theorem prereqOf_subset_allStrings (sm : List (String × SkillMeta)) (s : String) :
    ∀ p ∈ prereqOf sm s, p ∈ allStrings sm := by
  intro p hp
  cases hl : alookup s sm with
  | none => simp [prereqOf, hl] at hp
  | some meta =>
    simp only [prereqOf, hl, Option.map_some', Option.getD_some] at hp
    have hmem : (s, meta) ∈ sm := mem_of_alookup_eq_some s meta sm hl
    exact List.mem_append_right _ (List.mem_flatMap.mpr ⟨(s, meta), hmem, hp⟩)

theorem keys_subset_allStrings (sm : List (String × SkillMeta)) (s : String)
    (h : s ∉ allStrings sm) : alookup s sm = none := by
  apply alookup_eq_none_of_not_mem
  exact fun hmem => h (List.mem_append_left _ hmem)

theorem foldr_max_le_mem (l : List ℕ) (x : ℕ) (hx : x ∈ l) : x ≤ l.foldr max 0 := by
  induction l with
  | nil => cases hx
  | cons y rest ih =>
    rcases List.mem_cons.mp hx with rfl | hmem
    · exact le_max_left _ _
    · exact le_trans (ih hmem) (le_max_right _ _)

theorem prereqOf_length_le (sm : List (String × SkillMeta)) (s : String) :
    (prereqOf sm s).length ≤ maxPrereqLen sm := by
  cases hl : alookup s sm with
  | none => simp [prereqOf, hl]
  | some meta =>
    simp only [prereqOf, hl, Option.map_some', Option.getD_some]
    have hmem : (s, meta) ∈ sm := mem_of_alookup_eq_some s meta sm hl
    exact foldr_max_le_mem _ _ (List.mem_map.mpr ⟨(s, meta), hmem, rfl⟩)

/-- The visited set only grows along the traversal. -/
theorem dfs_visited_mono (sm : List (String × SkillMeta)) (fuel : ℕ) :
    (∀ s v ord v' ord', dfsVisit sm fuel s (v, ord) = some (v', ord') → v ⊆ v') ∧
    (∀ ps v ord v' ord', dfsList sm fuel ps (v, ord) = some (v', ord') → v ⊆ v') := by
  induction fuel with
  | zero =>
    constructor
    · intro s v ord v' ord' h
      exact Option.noConfusion h
    · intro ps v ord v' ord' h
      exact Option.noConfusion h
  | succ f ih =>
    constructor
    · intro s v ord v' ord' h
      rw [dfsVisit] at h
      by_cases hv : s ∈ v
      · rw [if_pos hv] at h
        obtain ⟨rfl, rfl⟩ := Prod.mk.injEq .. ▸ Option.some_inj.mp h
        exact List.Subset.refl v
      · rw [if_neg hv] at h
        cases hl : dfsList sm f (prereqOf sm s) (s :: v, ord) with
        | none =>
          rw [hl] at h
          exact Option.noConfusion h
        | some st' =>
          rw [hl] at h
          obtain ⟨rfl, rfl⟩ := Prod.mk.injEq .. ▸ Option.some_inj.mp h
          exact fun x hx => ih.2 _ _ _ _ _ hl (List.mem_cons_of_mem _ hx)
    · intro ps v ord v' ord' h
      cases ps with
      | nil =>
        rw [dfsList] at h
        obtain ⟨rfl, rfl⟩ := Prod.mk.injEq .. ▸ Option.some_inj.mp h
        exact List.Subset.refl v
      | cons p rest =>
        rw [dfsList] at h
        cases hl : dfsVisit sm f p (v, ord) with
        | none =>
          rw [hl] at h
          exact Option.noConfusion h
        | some st1 =>
          rw [hl] at h
          obtain ⟨v1, o1⟩ := st1
          exact fun x hx => ih.2 _ _ _ _ _ h (ih.1 _ _ _ _ _ hl hx)

/-- Fuel adequacy for the prerequisite loop, given adequacy for single
visits at the same unseen-count `k` (the visited set only grows along the
loop, so `k` keeps bounding the unseen count). -/
theorem dfsList_sufficient_of_visit (sm : List (String × SkillMeta)) (k : ℕ)
    (hV : ∀ s v ord fuel, unseen sm v ≤ k →
      (k + 1) * (maxPrereqLen sm + 2) ≤ fuel → (dfsVisit sm fuel s (v, ord)).isSome) :
    ∀ ps v ord fuel, unseen sm v ≤ k →
      ps.length + (k + 1) * (maxPrereqLen sm + 2) ≤ fuel →
      (dfsList sm fuel ps (v, ord)).isSome := by
  have h2 : 2 ≤ (k + 1) * (maxPrereqLen sm + 2) := by
    calc 2 = 1 * 2 := by omega
    _ ≤ (k + 1) * (maxPrereqLen sm + 2) := Nat.mul_le_mul (by omega) (by omega)
  intro ps
  induction ps with
  | nil =>
    intro v ord fuel hk hf
    cases fuel with
    | zero => omega
    | succ f => simp [dfsList]
  | cons p rest ih =>
    intro v ord fuel hk hf
    simp only [List.length_cons] at hf
    cases fuel with
    | zero => omega
    | succ f =>
      simp only [dfsList]
      have hvis : (dfsVisit sm f p (v, ord)).isSome := by
        apply hV p v ord f hk
        omega
      obtain ⟨st1, hst1⟩ := Option.isSome_iff_exists.mp hvis
      rw [hst1]
      obtain ⟨v1, o1⟩ := st1
      have hsub : v ⊆ v1 := (dfs_visited_mono sm f).1 p v ord v1 o1 hst1
      exact ih v1 o1 f (le_trans (unseen_mono sm v v1 hsub) hk) (by omega)

/-- Fuel adequacy for a single visit: fuel `(k+1) * (maxPrereqLen+2)`
suffices whenever at most `k` visitable strings are still unseen.  Each
expansion removes one string from the unseen set (the visited-set guard),
which drives the induction on `k`. -/
theorem dfs_sufficient (sm : List (String × SkillMeta)) :
    ∀ k s v ord fuel, unseen sm v ≤ k →
      (k + 1) * (maxPrereqLen sm + 2) ≤ fuel →
      (dfsVisit sm fuel s (v, ord)).isSome := by
  intro k
  induction k with
  | zero =>
    intro s v ord fuel hk hf
    cases fuel with
    | zero => omega
    | succ f =>
      simp only [dfsVisit]
      by_cases hv : s ∈ v
      · simp [hv]
      · rw [if_neg hv]
        have hsA : s ∉ allStrings sm := by
          intro hsA
          have := unseen_cons_lt sm v s hsA hv
          omega
        have hpre : prereqOf sm s = [] := by
          simp [prereqOf, keys_subset_allStrings sm s hsA]
        rw [hpre]
        cases f with
        | zero => omega
        | succ f' => simp [dfsList]
  | succ k ih =>
    intro s v ord fuel hk hf
    have h2 : 2 ≤ (k + 1 + 1) * (maxPrereqLen sm + 2) := by
      calc 2 = 1 * 2 := by omega
      _ ≤ (k + 1 + 1) * (maxPrereqLen sm + 2) := Nat.mul_le_mul (by omega) (by omega)
    cases fuel with
    | zero => omega
    | succ f =>
      simp only [dfsVisit]
      by_cases hv : s ∈ v
      · simp [hv]
      · rw [if_neg hv]
        by_cases hsA : s ∈ allStrings sm
        · have hk' : unseen sm (s :: v) ≤ k := by
            have := unseen_cons_lt sm v s hsA hv
            omega
          have hlist : (dfsList sm f (prereqOf sm s) (s :: v, ord)).isSome := by
            apply dfsList_sufficient_of_visit sm k ih (prereqOf sm s) (s :: v) ord f hk'
            have hlen := prereqOf_length_le sm s
            have hexp : (k + 1 + 1) * (maxPrereqLen sm + 2) =
                (k + 1) * (maxPrereqLen sm + 2) + (maxPrereqLen sm + 2) := by ring
            omega
          obtain ⟨st', hst'⟩ := Option.isSome_iff_exists.mp hlist
          rw [hst']
          simp
        · have hpre : prereqOf sm s = [] := by
            simp [prereqOf, keys_subset_allStrings sm s hsA]
          rw [hpre]
          cases f with
          | zero => omega
          | succ f' => simp [dfsList]

theorem unseen_nil (sm : List (String × SkillMeta)) :
    unseen sm [] = (allStrings sm).toFinset.card := by
  simp [unseen]

/-- A deliberately cyclic skills table (`a` and `b` require each other). -/
def cyclicReq : RoleReq := ⟨[("a", ⟨1/2, ["b"]⟩), ("b", ⟨1/2, ["a"]⟩)], []⟩

/-- C9: the prerequisite traversal terminates on every finite skills
table — cyclic tables included — because the visited-set guard lets each
string be expanded at most once; concretely, on the two-cycle `a ↔ b`
the traversal still returns.  (`none` would mean the embedded fuel ran
out, which corresponds to non-termination of the Python recursion.) -/
theorem resolve_prereqs_terminates :
    (∀ (rr : RoleReq) (skill : String), (resolve_prereqsO rr skill).isSome) ∧
    resolve_prereqsO cyclicReq "a" = some ["b"] := by
  constructor
  · intro rr skill
    have h := dfs_sufficient rr.skills ((allStrings rr.skills).toFinset.card) skill [] []
      (dfsFuel rr.skills) (le_of_eq (unseen_nil rr.skills)) (le_of_eq rfl)
    obtain ⟨st, hst⟩ := Option.isSome_iff_exists.mp h
    simp [resolve_prereqsO, hst]
  · decide

/-! ## Claim C5 — dependency-safe prerequisite order -/

/-- The returned order is dependency-safe: whenever `a` appears strictly
before `b` in the list, `b` is not a direct prerequisite of `a` — i.e.
any direct prerequisite of `a` that occurs in the list occurs before
`a`. -/
abbrev depSafe (sm : List (String × SkillMeta)) (l : List String) : Prop :=
  l.Pairwise (fun a b => b ∉ prereqOf sm a)

theorem resolve_prereqs_of_not_key (rr : RoleReq) (skill : String)
    (h : alookup skill rr.skills = none) : resolve_prereqs rr skill = [] := by
  have h2 : 2 ≤ dfsFuel rr.skills := by
    calc 2 = 1 * 2 := by omega
    _ ≤ dfsFuel rr.skills := Nat.mul_le_mul (by omega) (by omega)
  obtain ⟨f, hf⟩ : ∃ f, dfsFuel rr.skills = (f + 1) + 1 := ⟨dfsFuel rr.skills - 2, by omega⟩
  simp [resolve_prereqs, resolve_prereqsO, hf, dfsVisit, dfsList, prereqOf, h]

/-- C5: for every queried skill and both role entries of the knowledge
graph, `resolve_prereqs` excludes the queried skill from its own
prerequisite list and returns a dependency-safe order (a direct
prerequisite never after its dependent). -/
theorem resolve_prereqs_safe (skill : String) :
    (skill ∉ resolve_prereqs MLE_req skill ∧
      depSafe MLE_req.skills (resolve_prereqs MLE_req skill)) ∧
    (skill ∉ resolve_prereqs DA_req skill ∧
      depSafe DA_req.skills (resolve_prereqs DA_req skill)) := by
  constructor
  · by_cases h1 : skill = "Machine Learning Basics"
    · subst h1; exact ⟨by decide, by decide⟩
    by_cases h2 : skill = "Deep Learning"
    · subst h2; exact ⟨by decide, by decide⟩
    by_cases h3 : skill = "Model Deployment"
    · subst h3; exact ⟨by decide, by decide⟩
    by_cases h4 : skill = "Data Engineering"
    · subst h4; exact ⟨by decide, by decide⟩
    have hnone : alookup skill MLE_req.skills = none := by
      apply alookup_eq_none_of_not_mem
      intro hmem
      simp only [MLE_req, List.map_cons, List.mem_cons] at hmem
      rcases hmem with h | h | h | h | h
      · exact h1 h
      · exact h2 h
      · exact h3 h
      · exact h4 h
      · simp at h
    rw [resolve_prereqs_of_not_key MLE_req skill hnone]
    exact ⟨List.not_mem_nil skill, List.Pairwise.nil⟩
  · by_cases h1 : skill = "Data Analysis"
    · subst h1; exact ⟨by decide, by decide⟩
    by_cases h2 : skill = "SQL"
    · subst h2; exact ⟨by decide, by decide⟩
    by_cases h3 : skill = "Visualization"
    · subst h3; exact ⟨by decide, by decide⟩
    have hnone : alookup skill DA_req.skills = none := by
      apply alookup_eq_none_of_not_mem
      intro hmem
      simp only [DA_req, List.map_cons, List.mem_cons] at hmem
      rcases hmem with h | h | h | h
      · exact h1 h
      · exact h2 h
      · exact h3 h
      · simp at h
    rw [resolve_prereqs_of_not_key DA_req skill hnone]
    exact ⟨List.not_mem_nil skill, List.Pairwise.nil⟩

/-! ## Roadmap scheduling (`schedule_steps`, `build_roadmap_logic`) -/

/-- `RoadmapStep` pydantic model. -/
structure RoadmapStep where
  step : String
  type : String
  duration_weeks : ℤ
  reason : String
  resource : Option String
deriving DecidableEq, Repr

/-- One entry of the `gap_analysis` output:
`{"skill": ..., "importance": ...}`. -/
structure GapEntry where
  skill : String
  importance : ℚ
deriving DecidableEq, Repr

/-! ### Python `str()` of the role-requirements dict

The `11. Transparent Career Roadmap Generation` variant interpolates the
whole `role_req` dict into the core-step reason
(`f"Core requirement for {role_req}"`).  The printers below reproduce
CPython's `str()` for these concrete nested dicts: insertion order,
`'`-quoted strings, and the importance floats printed in their shortest
decimal form (each importance is a two-decimal value whose nearest double
reprs as exactly that decimal, e.g. `0.9`, `0.85`). -/

def pyQuote (s : String) : String := "\x27" ++ s ++ "\x27"

def pyStrList (elts : List String) : String :=
  "[" ++ String.intercalate ", " elts ++ "]"

def pyStrDict (entries : List (String × String)) : String :=
  "\x7b" ++ String.intercalate ", " (entries.map (fun e => pyQuote e.1 ++ ": " ++ e.2)) ++
    "\x7d"

/-- Shortest-decimal repr of an importance value `n/100 ∈ (0, 1)`
(every importance in the graph has a denominator dividing 100, so
`100 * q` is the integer `q.num * (100 / q.den)`, computed here on the
numerator and denominator directly). -/
def pyStrFloat (q : ℚ) : String :=
  let n : ℤ := q.num * (100 / (q.den : ℤ))
  let tens : ℤ := n / 10
  let ones : ℤ := n % 10
  if ones = 0 then "0." ++ toString tens else "0." ++ toString tens ++ toString ones

def pyStrSkillMeta (meta : SkillMeta) : String :=
  "\x7b\x27importance\x27: " ++ pyStrFloat meta.importance ++
    ", \x27prereq\x27: " ++ pyStrList (meta.prereq.map pyQuote) ++ "\x7d"

/-- Python `str(role_req)`. -/
def pyStrRoleReq (rr : RoleReq) : String :=
  pyStrDict
    [ ("skills", pyStrDict (rr.skills.map (fun p => (p.1, pyStrSkillMeta p.2)))),
      ("resources", pyStrDict (rr.resources.map (fun p => (p.1, pyQuote p.2)))) ]

/-- Inner loop `for p in prereqs:` of `schedule_steps`: emit a 2-week
preparation step for each prerequisite neither detected nor already
scheduled, and mark it seen. -/
def schedulePrereqs (skill : String) (rr : RoleReq) (detected : List String) :
    List String → List RoadmapStep × List String → List RoadmapStep × List String
  | [], acc => acc
  | p :: ps, (roadmap, seen) =>
    if p ∉ detected ∧ p ∉ seen then
      schedulePrereqs skill rr detected ps
        (roadmap ++ [⟨p, "Course/Preparation", 2, "Prerequisite for " ++ skill,
          alookup p rr.resources⟩], p :: seen)
    else schedulePrereqs skill rr detected ps (roadmap, seen)

/-- Outer loop `for gap in gaps:` of `schedule_steps`.  Note that the
core step's reason interpolates `role_req` — the whole requirements
dict — because the source reads `f"Core requirement for {role_req}"`
(this variant of `schedule_steps` does not even take the target role as
a parameter). -/
def scheduleGaps (rr : RoleReq) (detected : List String) :
    List GapEntry → List RoadmapStep × List String → List RoadmapStep × List String
  | [], acc => acc
  | gap :: rest, (roadmap, seen) =>
    let skill := gap.skill
    let prereqs := resolve_prereqs rr skill
    let acc1 := schedulePrereqs skill rr detected prereqs (roadmap, seen)
    let acc2 :=
      if skill ∉ acc1.2 then
        (acc1.1 ++ [⟨skill, "Course/Project", 3,
          "Core requirement for " ++ pyStrRoleReq rr, alookup skill rr.resources⟩],
         skill :: acc1.2)
      else acc1
    scheduleGaps rr detected rest acc2

/-- `schedule_steps(gaps, role_req, detected)`. -/
def schedule_steps (gaps : List GapEntry) (rr : RoleReq) (detected : List String) :
    List RoadmapStep :=
  (scheduleGaps rr detected gaps ([], [])).1

/-- `gap_analysis(detected, role_req)`: role skills not detected, stably
sorted by descending importance
(`sorted(gaps, key=lambda x: -x["importance"])`). -/
def gap_analysis (detected : List String) (rr : RoleReq) : List GapEntry :=
  ((rr.skills.filter (fun p => p.1 ∉ detected)).map
    (fun p => GapEntry.mk p.1 p.2.importance)).mergeSort
    (fun a b => decide (b.importance ≤ a.importance))

/-- `generate_narrative(detected, gaps, role)`. -/
def generate_narrative (gaps : List GapEntry) (role : String) : String :=
  if gaps.isEmpty then
    "Your resume already aligns well with the " ++ role ++
      " role. Focus on projects and portfolios to showcase your expertise."
  else
    "For the " ++ role ++ " role, you are missing key skills such as " ++
      String.intercalate ", " ((gaps.take 3).map (·.skill)) ++
      ". Start by covering their prerequisites, then move to advanced applications. " ++
      "Completing these topics will significantly strengthen your fit for " ++ role ++ "."

/-- `RoadmapOutput` pydantic model. -/
structure RoadmapOutput where
  target_role : String
  detected_skills : List String
  gaps : List String
  roadmap : List RoadmapStep
  narrative : String
deriving DecidableEq, Repr

/-- `build_roadmap_logic(resume_text, target_role)`.  Resume parsing
(`simple_skill_extractor` + `normalize_skills`: regex/spaCy over the
synonym table) is the out-of-scope CV-parsing collaborator; its output,
the normalized detected-skill list, is the parameter `normalized`, so
quantifying over it covers every resume text.  The unused
`timeline_months` parameter is dropped. -/
def build_roadmap_logic (normalized : List String) (target_role : String) : RoadmapOutput :=
  match alookup target_role KNOWLEDGE_GRAPH with
  | none =>
    ⟨target_role, normalized, [], [],
      "Role \x27" ++ target_role ++ "\x27 not found in knowledge graph."⟩
  | some rr =>
    let gaps := gap_analysis normalized rr
    ⟨target_role, normalized, gaps.map (·.skill),
      schedule_steps gaps rr normalized,
      generate_narrative gaps target_role⟩

/-! ## Claim C6 — unknown target role -/

/-- C6: for every detected-skill list (hence every resume text) and every
target role absent from the knowledge graph, `build_roadmap_logic`
returns a total, well-formed output with empty gaps, empty roadmap and
the non-empty explanatory role-not-found narrative — never an
exception. -/
theorem unknown_role_safe (normalized : List String) (role : String)
    (h : alookup role KNOWLEDGE_GRAPH = none) :
    build_roadmap_logic normalized role =
      ⟨role, normalized, [], [],
        "Role \x27" ++ role ++ "\x27 not found in knowledge graph."⟩ ∧
    ("Role \x27" ++ role ++ "\x27 not found in knowledge graph.") ≠ "" := by
  constructor
  · simp [build_roadmap_logic, h]
  · intro hc
    have hlen := congrArg String.length hc
    simp only [String.length_append] at hlen
    have h6 : ("Role \x27" : String).length = 6 := rfl
    have h0 : ("" : String).length = 0 := rfl
    omega

/-- C6 witness: the unknown-role theorem at the concrete role
`"Quantum Chef"`. -/
theorem unknown_role_safe_witness :
    build_roadmap_logic ["Python"] "Quantum Chef" =
      ⟨"Quantum Chef", ["Python"], [], [],
        "Role \x27Quantum Chef\x27 not found in knowledge graph."⟩ ∧
    ("Role \x27" ++ "Quantum Chef" ++ "\x27 not found in knowledge graph.") ≠ "" :=
  unknown_role_safe ["Python"] "Quantum Chef" rfl

/-! ## Claim C7 — the core step's reason string -/

/-- The gap entry `{"skill": "SQL", "importance": 0.85}` of the Data
Analyst role (SQL has no prerequisites). -/
def sqlGap : GapEntry := ⟨"SQL", mkRat 85 100⟩

/-- C7 failing input (code bug in the `11.` variant of
`schedule_steps`): scheduling the SQL gap for the Data Analyst table
with nothing detected emits the core step with duration 3 and the
catalog resource as claimed, but its reason is
`"Core requirement for "` followed by the `str()` of the entire
role-requirements dict — the source reads
`f"Core requirement for {role_req}"` and this `schedule_steps` does not
even receive the target role (the parallel `J.` variant passes and uses
`target_role`, matching the claim). -/
theorem core_reason_bug :
    schedule_steps [sqlGap] DA_req [] =
      [⟨"SQL", "Course/Project", 3, "Core requirement for " ++ pyStrRoleReq DA_req,
        some "Course: SQL for Data Analysis"⟩] ∧
    pyStrRoleReq DA_req =
      "\x7b\x27skills\x27: \x7b\x27Data Analysis\x27: \x7b\x27importance\x27: 0.9, \x27prereq\x27: [\x27Excel\x27, \x27Python\x27]\x7d, \x27SQL\x27: \x7b\x27importance\x27: 0.85, \x27prereq\x27: []\x7d, \x27Visualization\x27: \x7b\x27importance\x27: 0.8, \x27prereq\x27: [\x27Data Analysis\x27]\x7d\x7d, \x27resources\x27: \x7b\x27Data Analysis\x27: \x27Course: Data Analysis with Python\x27, \x27SQL\x27: \x27Course: SQL for Data Analysis\x27, \x27Visualization\x27: \x27Project: Build dashboards with PowerBI or Tableau\x27\x7d\x7d" ∧
    "Core requirement for " ++ pyStrRoleReq DA_req ≠
      "Core requirement for Data Analyst" := by
  refine ⟨by decide, by decide, ?_⟩
  intro hc
  have hlen := congrArg String.length hc
  have h1 : ("Core requirement for " ++ pyStrRoleReq DA_req).length = 391 := by decide
  have h2 : ("Core requirement for Data Analyst" : String).length = 33 := by decide
  omega

/-! ## Content catalog and adaptive recommendations
(`adaptive_recommendation_system.py`) -/

/-- `ContentItem` dataclass. -/
structure ContentItem where
  content_id : String
  title : String
  type : String
  skill_id : String
  xp_level : String
deriving DecidableEq, Repr

/-- `CONTENT_DB` in `.values()` (insertion) order. -/
def CONTENT_DB : List ContentItem :=
  [ ⟨"C101", "Python for Beginners Course", "course", "python", "beginner"⟩,
    ⟨"C102", "Intro to Pandas Course", "course", "pandas", "beginner"⟩,
    ⟨"P101", "Pandas Sales Data Analysis Project", "project", "pandas", "advanced"⟩,
    ⟨"C103", "SQL Fundamentals Course", "course", "sql", "beginner"⟩,
    ⟨"C201", "Machine Learning A-Z Course", "course", "ml_fundamentals", "beginner"⟩,
    ⟨"P201", "Titanic Survivor Prediction Project", "project", "ml_fundamentals", "advanced"⟩ ]

/-- `find_content_for_skill(skill_id, xp_level)`: first item of
`CONTENT_DB` matching both fields. -/
def find_content_for_skill (sid lvl : String) : Option ContentItem :=
  CONTENT_DB.find? (fun it => it.skill_id == sid && it.xp_level == lvl)

/-- Loop of `get_adaptive_recommendations`: `user_state[sid]` (KeyError,
i.e. `none`, on absence), the role filter, the status filter, then the
adaptive course/project choice at the 30% practice threshold
(`required_xp * 0.3` is exact as a double for the catalog requirements,
so the comparison is `10 * xp < 3 * r`); a skill with no matching
content item is skipped. -/
def recGo (m : UserState) (role : String) :
    List (String × SkillNode) → List ContentItem → Option (List ContentItem)
  | [], acc => some acc
  | p :: rest, acc =>
    match alookup p.1 m with
    | none => none
    | some st =>
      if role ∉ p.2.roles then recGo m role rest acc
      else if st.status ≠ "unlocked" ∧ st.status ≠ "in_progress" then recGo m role rest acc
      else
        match (if 10 * st.current_xp < 3 * p.2.required_xp
            then find_content_for_skill p.1 "beginner"
            else find_content_for_skill p.1 "advanced") with
        | some it => recGo m role rest (acc ++ [it])
        | none => recGo m role rest acc

/-- `get_adaptive_recommendations(user_state, target_role, top_k)`:
candidates collected in catalog order, truncated to `top_k`. -/
def get_adaptive_recommendations (m : UserState) (role : String) (topK : ℕ) :
    Option (List ContentItem) :=
  match recGo m role SKILL_DEFS [] with
  | none => none
  | some recs => some (recs.take topK)

/-- What C8 asserts about every emitted item: it targets a catalog skill
whose applicable roles contain the target role, whose status is
`unlocked` or `in_progress`, and it is a beginner course below the 30%
practice threshold and an advanced project at or above it. -/
def recOK (m : UserState) (role : String) (it : ContentItem) : Prop :=
  ∃ node st, (it.skill_id, node) ∈ SKILL_DEFS ∧ alookup it.skill_id m = some st ∧
    role ∈ node.roles ∧ (st.status = "unlocked" ∨ st.status = "in_progress") ∧
    (if 10 * st.current_xp < 3 * node.required_xp
      then it.xp_level = "beginner" ∧ it.type = "course"
      else it.xp_level = "advanced" ∧ it.type = "project")

/-- In the content catalog, every beginner item is a course and every
advanced item is a project. -/
theorem contentTierKind :
    ∀ it ∈ CONTENT_DB, (it.xp_level = "beginner" → it.type = "course") ∧
      (it.xp_level = "advanced" → it.type = "project") := by decide

theorem find_content_spec (sid lvl : String) (it : ContentItem)
    (h : find_content_for_skill sid lvl = some it) :
    it ∈ CONTENT_DB ∧ it.skill_id = sid ∧ it.xp_level = lvl := by
  have hmem := List.mem_of_find?_eq_some h
  have hp := List.find?_some h
  simp only [Bool.and_eq_true, beq_iff_eq] at hp
  exact ⟨hmem, hp.1, hp.2⟩

theorem recGo_spec (m : UserState) (role : String) :
    ∀ (defs : List (String × SkillNode)) (acc : List ContentItem),
      (∀ p ∈ defs, p ∈ SKILL_DEFS) →
      (∀ p ∈ defs, (alookup p.1 m).isSome) →
      ∃ recs, recGo m role defs acc = some recs ∧
        ∀ it ∈ recs, it ∈ acc ∨ recOK m role it := by
  intro defs
  induction defs with
  | nil =>
    intro acc _ _
    exact ⟨acc, rfl, fun it hit => Or.inl hit⟩
  | cons p rest ih =>
    intro acc hsub hsome
    have hsub' : ∀ q ∈ rest, q ∈ SKILL_DEFS :=
      fun q hq => hsub q (List.mem_cons_of_mem _ hq)
    have hsome' : ∀ q ∈ rest, (alookup q.1 m).isSome :=
      fun q hq => hsome q (List.mem_cons_of_mem _ hq)
    obtain ⟨st, hst⟩ := Option.isSome_iff_exists.mp (hsome p (List.mem_cons_self _ _))
    by_cases hrole : role ∉ p.2.roles
    · obtain ⟨recs, hrecs, hP⟩ := ih acc hsub' hsome'
      exact ⟨recs, by simp only [recGo, hst, if_pos hrole]; exact hrecs, hP⟩
    · by_cases hstat : st.status ≠ "unlocked" ∧ st.status ≠ "in_progress"
      · obtain ⟨recs, hrecs, hP⟩ := ih acc hsub' hsome'
        exact ⟨recs,
          by simp only [recGo, hst, if_neg hrole, if_pos hstat]; exact hrecs, hP⟩
      · have hstat' : st.status = "unlocked" ∨ st.status = "in_progress" := by
          rcases not_and_or.mp hstat with h | h
          · exact Or.inl (not_not.mp h)
          · exact Or.inr (not_not.mp h)
        cases hitem : (if 10 * st.current_xp < 3 * p.2.required_xp
            then find_content_for_skill p.1 "beginner"
            else find_content_for_skill p.1 "advanced") with
        | none =>
          obtain ⟨recs, hrecs, hP⟩ := ih acc hsub' hsome'
          exact ⟨recs,
            by simp only [recGo, hst, if_neg hrole, if_neg hstat, hitem]; exact hrecs, hP⟩
        | some it =>
          obtain ⟨recs, hrecs, hP⟩ := ih (acc ++ [it]) hsub' hsome'
          refine ⟨recs,
            by simp only [recGo, hst, if_neg hrole, if_neg hstat, hitem]; exact hrecs, ?_⟩
          intro x hx
          rcases hP x hx with hacc | hok
          · rcases List.mem_append.mp hacc with h1 | h2
            · exact Or.inl h1
            · have hx_it : x = it := by simpa using h2
              subst hx_it
              right
              have hpS : (p.1, p.2) ∈ SKILL_DEFS := by
                have := hsub p (List.mem_cons_self _ _)
                simpa using this
              by_cases hlt : 10 * st.current_xp < 3 * p.2.required_xp
              · rw [if_pos hlt] at hitem
                obtain ⟨hmem, hsid, hlvl⟩ := find_content_spec _ _ _ hitem
                refine ⟨p.2, st, by rw [hsid]; exact hpS, by rw [hsid]; exact hst,
                  not_not.mp hrole, hstat', ?_⟩
                rw [if_pos hlt]
                exact ⟨hlvl, (contentTierKind x hmem).1 hlvl⟩
              · rw [if_neg hlt] at hitem
                obtain ⟨hmem, hsid, hlvl⟩ := find_content_spec _ _ _ hitem
                refine ⟨p.2, st, by rw [hsid]; exact hpS, by rw [hsid]; exact hst,
                  not_not.mp hrole, hstat', ?_⟩
                rw [if_neg hlt]
                exact ⟨hlvl, (contentTierKind x hmem).2 hlvl⟩
          · exact Or.inr hok

/-- C8: on complete user states the selector never raises, returns at
most `top_k` items, and every emitted item satisfies `recOK`: its skill
is role-relevant with status `unlocked`/`in_progress`, the item is a
beginner course strictly below the 30% practice threshold and an
advanced project otherwise; skills without matching content are silently
skipped (totality). -/
theorem adaptive_recommendations_spec (m : UserState) (role : String) (topK : ℕ)
    (hc : Complete m) :
    ∃ recs, get_adaptive_recommendations m role topK = some recs ∧
      recs.length ≤ topK ∧ ∀ it ∈ recs, recOK m role it := by
  obtain ⟨recs, hrecs, hP⟩ := recGo_spec m role SKILL_DEFS [] (fun p hp => hp) hc
  refine ⟨recs.take topK, by simp only [get_adaptive_recommendations, hrecs], ?_, ?_⟩
  · exact le_trans (le_of_eq (List.length_take _ _)) (min_le_left _ _)
  · intro it hit
    rcases hP it (List.mem_of_mem_take hit) with habs | hok
    · cases habs
    · exact hok

/-- A complete user state with statuses already computed:
`python` in progress at 50/100 XP, `pandas` and `sql` unlocked at 0. -/
def recState : UserState :=
  [ ("python", ⟨50, "in_progress"⟩), ("pandas", ⟨0, "unlocked"⟩),
    ("ml_fundamentals", ⟨0, "locked"⟩), ("model_deployment", ⟨0, "locked"⟩),
    ("sql", ⟨0, "unlocked"⟩), ("data_viz", ⟨0, "locked"⟩) ]

/-- C8 witness: the selector theorem applied at a concrete complete
state, role `data_scientist` and `top_k = 3`. -/
theorem adaptive_recommendations_spec_witness :
    ∃ recs, get_adaptive_recommendations recState "data_scientist" 3 = some recs ∧
      recs.length ≤ 3 ∧ ∀ it ∈ recs, recOK recState "data_scientist" it :=
  adaptive_recommendations_spec recState "data_scientist" 3 (by decide)

end CareerMatch
